import Mathlib

/-!
Verification of the agent-coordination logic of the journal repository:
`src/tools/coordination_manager.py` and `src/tools/global_coordinator.py`.

The Python code stores all work-area state in a markdown file
(`AI_COORDINATION.md`) with two tables:

  ### Available Work Areas        (rows: | id | description | priority | dependencies |)
  ### Active Work Areas           (rows: | id | description | status | assigned_to | last_updated |)

We embed the file at the level the code reads and writes it: a document is
the list of table data lines of each section, and a line is the list of its
(stripped) cells.  This corresponds to a canonically rendered file where every
data row is written `| c1 | c2 | ... | cn |` with single spaces (exactly the
format `add_new_area` itself emits) and where each section's last data line is
followed by a newline.  Separator lines (`|---|`), headers of the markdown
sections and prose lines are never parsed and are unaffected by the string
replacements the code performs, so they are not represented.

`claim_area` and `complete_area` mutate the file via
`content.replace("| X |", "| X | STATUS | agent | date |")` which, on a
canonically rendered file, splices the three cells `STATUS, agent, date` after
every cell equal to `X` -- in any row of any section -- with Python's
left-to-right non-overlapping scan: the trailing `|` of a matched occurrence
is consumed, so the cell immediately following a matched cell cannot itself
start a match.  `spliceCells` models this exactly.
-/

namespace Coordination

/-- One markdown table data line: its stripped cells.
Python parses a line into `parts = line.split('|')`, so for the rendered line
`| c1 | ... | cn |` we have `parts = [''] ++ cells ++ ['']`. -/
abbrev Line := List String

/-- The coordination file: the data lines of the two sections. -/
structure Doc where
  avail : List Line
  active : List Line
deriving DecidableEq, Repr

/-- A parsed row of `### Available Work Areas`
(`CoordinationManager.get_available_areas`). -/
structure AvailArea where
  id : String
  description : String
  priority : String
  deps : String
deriving DecidableEq, Repr

/-- A parsed row of `### Active Work Areas`
(`CoordinationManager.get_active_areas`). -/
structure ActiveArea where
  id : String
  description : String
  status : String
  assigned : String
  updated : String
deriving DecidableEq, Repr

/-- Parsing of one line by `get_available_areas`: with
`parts = [''] ++ cells ++ ['']`, the code requires `len(parts) >= 5`
(i.e. at least 3 cells) and reads `parts[1] .. parts[4]`; for a 3-cell line
`parts[4]` is the trailing empty part. -/
def parseAvailLine : Line → Option AvailArea
  | c1 :: c2 :: c3 :: rest => some ⟨c1, c2, c3, rest.headD ""⟩
  | _ => none

/-- Parsing of one line by `get_active_areas`: requires `len(parts) >= 6`
(at least 4 cells) and reads `parts[1] .. parts[5]`. -/
def parseActiveLine : Line → Option ActiveArea
  | c1 :: c2 :: c3 :: c4 :: rest => some ⟨c1, c2, c3, c4, rest.headD ""⟩
  | _ => none

/-- `CoordinationManager.get_available_areas`. -/
def availableAreas (d : Doc) : List AvailArea :=
  d.avail.filterMap parseAvailLine

/-- `CoordinationManager.get_active_areas`. -/
def activeAreas (d : Doc) : List ActiveArea :=
  d.active.filterMap parseActiveLine

/-- Effect on one rendered line of Python's
`content.replace("| x |", "| x | i1 | i2 | i3 |")`: the cells `ins` are
spliced in after every cell equal to `x`, except that a cell directly after
a matched cell is skipped by the scan (its leading `|` was consumed by the
previous replacement). -/
def spliceCells (x : String) (ins : List String) : Line → Line
  | [] => []
  | [c] => if c = x then c :: ins else [c]
  | c :: c2 :: rest =>
    if c = x then c :: ins ++ c2 :: spliceCells x ins rest
    else c :: spliceCells x ins (c2 :: rest)

/-- The whole-file `str.replace` acts on every data line of both sections. -/
def spliceDoc (x : String) (ins : List String) (d : Doc) : Doc :=
  ⟨d.avail.map (spliceCells x ins), d.active.map (spliceCells x ins)⟩

/-- `CoordinationManager.claim_area`.  `today` stands for
`datetime.now().strftime('%Y-%m-%d')`.  Returns the Python return value and
the resulting file contents. -/
def claimArea (d : Doc) (areaId agentId today : String) : Bool × Doc :=
  if (availableAreas d).any (fun a => a.id == areaId) then
    (true, spliceDoc areaId ["IN_PROGRESS", agentId, today] d)
  else
    (false, d)

/-- `CoordinationManager.complete_area`. -/
def completeArea (d : Doc) (areaId agentId today : String) : Bool × Doc :=
  if (activeAreas d).any
      (fun a => a.id == areaId && a.assigned == agentId && a.status == "IN_PROGRESS") then
    (true, spliceDoc areaId ["COMPLETED", agentId, today] d)
  else
    (false, d)

/-- Python `s1.startswith(s2)` on the underlying character lists. -/
def leadsWith : List Char → List Char → Bool
  | [], _ => true
  | _ :: _, [] => false
  | p :: ps, q :: qs => p == q && leadsWith ps qs

/-- Python `s.split(sep)` for a one-character separator. -/
def splitOnChar (sep : Char) : List Char → List (List Char)
  | [] => [[]]
  | c :: rest =>
    match splitOnChar sep rest with
    | h :: t => if c = sep then [] :: h :: t else (c :: h) :: t
    | [] => if c = sep then [[], []] else [[c]]

def isSpaceCh (c : Char) : Bool :=
  c == ' ' || c == '\t' || c == '\n' || c == '\r'

/-- Python `s.strip()`. -/
def trimChars (l : List Char) : List Char :=
  ((l.dropWhile isSpaceCh).reverse.dropWhile isSpaceCh).reverse

def isDigitCh (c : Char) : Bool :=
  48 ≤ c.toNat && c.toNat ≤ 57

def isUpperCh (c : Char) : Bool :=
  65 ≤ c.toNat && c.toNat ≤ 90

/-- Python `int(s)` for the strings that occur here: defined on nonempty
all-digit strings, and a parse failure (`None`) models the `ValueError`
Python raises on anything else. -/
def digitsToNat? (l : List Char) : Option Nat :=
  if l.isEmpty then none
  else l.foldl
    (fun acc c => acc.bind (fun a => if isDigitCh c then some (a * 10 + (c.toNat - 48)) else none))
    (some 0)

/-- `int(area['id'].split('-')[1])` from `add_new_area`: `none` models the
`IndexError`/`ValueError` when the id has no second `-`-component or it is
not a number. -/
def seqNum (id : String) : Option Nat :=
  match splitOnChar '-' id.data with
  | _ :: second :: _ => digitsToNat? second
  | _ => none

/-- `str(n).zfill(3)`. -/
def zfill3 (s : String) : String :=
  if 3 ≤ s.data.length then s
  else String.mk (List.replicate (3 - s.data.length) '0') ++ s

/-- The ids of all parsed areas, available then active
(`existing_areas = self.get_available_areas() + self.get_active_areas()`). -/
def existingIds (d : Doc) : List String :=
  (availableAreas d).map (fun a => a.id) ++ (activeAreas d).map (fun a => a.id)

/-- `[area for area in existing_areas if area['id'].startswith(category)]`
(note: a string-prefix test, not an exact category match). -/
def categoryIds (d : Doc) (category : String) : List String :=
  (existingIds d).filter (fun i => leadsWith category.data i.data)

/-- `CoordinationManager.add_new_area`.  Returns the new area id and the new
file contents; `none` models the exception raised when an existing id of the
category fails to parse as `<word>-<number>`.  The new row is appended as the
last data line of the Available section. -/
def addNewArea (d : Doc) (category description priority deps : String) :
    Option (String × Doc) :=
  match categoryIds d category with
  | [] =>
    let areaId := category ++ "-001"
    some (areaId, ⟨d.avail ++ [[areaId, description, priority, deps]], d.active⟩)
  | ids =>
    match ids.mapM seqNum with
    | none => none
    | some ns =>
      let areaId := category ++ "-" ++ zfill3 (toString (ns.foldl max 0 + 1))
      some (areaId, ⟨d.avail ++ [[areaId, description, priority, deps]], d.active⟩)

/-- `CoordinationManager.get_next_available_area`.  The `capabilities`
argument is accepted but never consulted by the Python code; the filter is
exact priority match plus not-also-listed-active, and the first match in file
order is returned. -/
def getNextAvailableArea (d : Doc) (capabilities : List String) (priority : String) :
    Option AvailArea :=
  ((availableAreas d).filter
    (fun a => a.priority == priority
      && !((activeAreas d).any (fun b => b.id == a.id)))).head?

/-- `CoordinationManager.check_dependencies`. -/
def checkDependencies (d : Doc) (areaId : String) : Bool × List String :=
  match (availableAreas d).find? (fun a => a.id == areaId) with
  | none => (true, [])
  | some a =>
    if a.deps = "" then (true, [])
    else
      let deps := (splitOnChar ',' a.deps.data).map (fun l => String.mk (trimChars l))
      let act := activeAreas d
      let unmet := deps.filter
        (fun dep => !(act.any (fun r => r.id == dep && r.status == "COMPLETED")))
      (unmet.isEmpty, unmet)

def isAgentCh (c : Char) : Bool :=
  isUpperCh c || isDigitCh c || c == '-'

/-- The common core of the two branch regexes: a prefix match of
`[A-Z]+-\d+-` returning the chars of the group `[A-Z]+-\d+` and the
remainder after the second `-`.  Maximal-munch parsing is equivalent to the
backtracking regex here: shortening a greedy `[A-Z]+` (resp. `\d+`) run makes
the next character an uppercase letter (resp. a digit), which can never match
the required literal `-`, so only the maximal runs can succeed. -/
def matchAreaIdDash (cs : List Char) : Option (List Char × List Char) :=
  let up := cs.takeWhile isUpperCh
  let rest := cs.dropWhile isUpperCh
  if up.isEmpty then none
  else
    match rest with
    | '-' :: rest2 =>
      let ds := rest2.takeWhile isDigitCh
      let rest3 := rest2.dropWhile isDigitCh
      if ds.isEmpty then none
      else
        match rest3 with
        | '-' :: rest4 => some (up ++ '-' :: ds, rest4)
        | _ => none
    | _ => none

/-- `re.match(r"feature/([A-Z]+-\d+)-", branch_name)` from
`GlobalCoordinator.complete_work_branch`: the extracted area id, if any. -/
def parseCompleteBranchL : List Char → Option String
  | 'f' :: 'e' :: 'a' :: 't' :: 'u' :: 'r' :: 'e' :: '/' :: rest =>
    (matchAreaIdDash rest).map (fun p => String.mk p.1)
  | _ => none

def parseCompleteBranch (branch : String) : Option String :=
  parseCompleteBranchL branch.data

/-- `re.match(r"origin/feature/([A-Z]+-\d+)-([A-Z0-9-]+)", branch)` from
`sync_coordination_file` (and `get_work_status`): the extracted
(area id, agent id), if any.  The second group is the maximal nonempty run of
`[A-Z0-9-]` after the dash; if it is empty the whole regex fails (backtracking
into the earlier groups cannot succeed, as for `matchAreaIdDash`). -/
def parseSyncBranchL : List Char → Option (String × String)
  | 'o' :: 'r' :: 'i' :: 'g' :: 'i' :: 'n' :: '/' ::
    'f' :: 'e' :: 'a' :: 't' :: 'u' :: 'r' :: 'e' :: '/' :: rest =>
    match matchAreaIdDash rest with
    | some (g1, rem) =>
      let ag := rem.takeWhile isAgentCh
      if ag.isEmpty then none else some (String.mk g1, String.mk ag)
    | none => none
  | _ => none

def parseSyncBranch (branch : String) : Option (String × String) :=
  parseSyncBranchL branch.data

/-- `branch_name = f"feature/{area_id}-{agent_id}"` from
`GlobalCoordinator.create_work_branch`. -/
def mkWorkBranch (areaId agentId : String) : String :=
  "feature/" ++ areaId ++ "-" ++ agentId

/-- The git state visible to the coordinator: the current branch, the local
branch names (as returned by `get_local_branches`) and the remote branch
names (as returned by `get_remote_branches`, i.e. with `origin/` prefixes). -/
structure Git where
  current : String
  locals : List String
  remotes : List String
deriving DecidableEq, Repr

/-- `GlobalCoordinator.is_branch_exists`. -/
def branchExists (g : Git) (branch : String) : Bool :=
  g.locals.contains branch || g.remotes.contains branch

/-- `GlobalCoordinator.create_work_branch`.  The Python function re-reads the
coordination file at every step, so a concurrent writer can change it between
the availability/dependency checks and the `claim_area` call; `d1` is the
file contents at check time and `d2` at claim time (`d2 = d1` when nothing
intervenes).  `createErr` is the stderr of `git checkout -b` (the code treats
any nonempty stderr as failure).  On the claim-failure path the code runs
`git checkout main` and `git branch -D <branch>`.  Returns the Python return
value, the final file contents and the final git state. -/
def createWorkBranch (d1 d2 : Doc) (git : Git) (createErr : String)
    (areaId agentId today : String) : Option String × Doc × Git :=
  if !((availableAreas d1).any (fun a => a.id == areaId)) then (none, d1, git)
  else if !(checkDependencies d1 areaId).1 then (none, d1, git)
  else
    let branch := mkWorkBranch areaId agentId
    if branchExists git branch then (none, d1, git)
    else if createErr ≠ "" then (none, d1, git)
    else
      let git2 : Git := ⟨branch, git.locals ++ [branch], git.remotes⟩
      match claimArea d2 areaId agentId today with
      | (true, d3) => (some branch, d3, git2)
      | (false, d3) =>
        (none, d3, ⟨"main", git2.locals.erase branch, git2.remotes⟩)

/-- The stderr results of the three git commands `complete_work_branch` runs
before touching the store (`git checkout main`, `git pull`,
`git merge <branch>`); the code treats any nonempty stderr as failure. -/
structure VcsRun where
  checkoutErr : String
  pullErr : String
  mergeErr : String
deriving DecidableEq, Repr

/-- `GlobalCoordinator.complete_work_branch`.  Returns the Python return
value and the resulting coordination-file contents (the final
`git branch -D` only touches git, not the store). -/
def completeWorkBranch (vcs : VcsRun) (d : Doc) (branch agentId today : String) :
    Bool × Doc :=
  match parseCompleteBranch branch with
  | none => (false, d)
  | some areaId =>
    if vcs.checkoutErr ≠ "" then (false, d)
    else if vcs.pullErr ≠ "" then (false, d)
    else if vcs.mergeErr ≠ "" then (false, d)
    else completeArea d areaId agentId today

/-- The branch pairs `sync_coordination_file` extracts from the remote
branch list. -/
def syncPairs (branches : List String) : List (String × String) :=
  branches.filterMap parseSyncBranch

/-- One iteration of the outer loop of `sync_coordination_file`: the inner
loop over the *initially read* active list `act0` calls `claim_area` (then
breaks) as soon as it finds an active area with this id and a different
assignee. -/
def syncStep (act0 : List ActiveArea) (today : String) (d : Doc)
    (pr : String × String) : Doc :=
  if act0.any (fun a => a.id == pr.1 && a.assigned != pr.2) then
    (claimArea d pr.1 pr.2 today).2
  else d

/-- `GlobalCoordinator.sync_coordination_file`: reads the active list once,
then folds the per-branch updates over the file state.  (Its Python return
value is always `True`.) -/
def syncCoordinationFile (d : Doc) (branches : List String) (today : String) : Doc :=
  (syncPairs branches).foldl (syncStep (activeAreas d) today) d

/-- The status carried by the first parsed row with a given id among a list
of Active-table lines. -/
def listStatus (L : List Line) (x : String) : Option String :=
  ((L.filterMap parseActiveLine).find? (fun a => a.id == x)).map (fun a => a.status)

/-- The status the code itself ascribes to an area: the `status` column of
the first row of the Active table carrying this id (`get_active_areas`),
else `AVAILABLE` when the id is listed in the Available table
(`get_available_areas`; cf. the `'status': 'AVAILABLE'` default of
`get_work_status`), else absent. -/
def rowStatus? (d : Doc) (x : String) : Option String :=
  listStatus d.active x

def statusOf (d : Doc) (x : String) : String :=
  match rowStatus? d x with
  | some s => s
  | none => if (availableAreas d).any (fun a => a.id == x) then "AVAILABLE" else "ABSENT"

/-- The public store-mutating operations of the coordination API. -/
inductive Op where
  | claimOp (areaId agentId today : String)
  | completeOp (areaId agentId today : String)
  | addOp (category description priority deps : String)
  | syncOp (branches : List String) (today : String)

/-- The effect of one public operation on the coordination file. -/
def applyOp (d : Doc) : Op → Doc
  | .claimOp a g t => (claimArea d a g t).2
  | .completeOp a g t => (completeArea d a g t).2
  | .addOp c de p dp =>
    match addNewArea d c de p dp with
    | some pr => pr.2
    | none => d
  | .syncOp bs t => syncCoordinationFile d bs t

def runOps (d : Doc) : List Op → Doc
  | [] => d
  | o :: os => runOps (applyOp d o) os

/-- Well-formedness of an Active-table line relative to a completed id `x`:
the only cell equal to `x` is the id cell, the line has enough cells to
parse, and its status cell is not `COMPLETED`. -/
def CompleteShape (x : String) (l : Line) : Prop :=
  ∃ tl, l = x :: tl ∧ x ∉ tl ∧ 3 ≤ tl.length ∧ tl.get? 1 ≠ some "COMPLETED"

/-- Side conditions under which a public operation cannot corrupt foreign
rows through the whole-file `str.replace`: the id being claimed must not
occur as a cell of any Active-table line (for a completion, not outside the
target row's id cell), and a completing agent must not be named
`AVAILABLE`. -/
def SafeOp (d : Doc) : Op → Prop
  | .claimOp a _ _ => ∀ l ∈ d.active, a ∉ l
  | .completeOp a g _ => g ≠ "AVAILABLE" ∧ ∀ l ∈ d.active, a ∈ l → CompleteShape a l
  | .addOp _ _ _ _ => True
  | .syncOp bs _ => ∀ pr ∈ syncPairs bs, ∀ l ∈ d.active, pr.1 ∉ l

/-- A run of public operations whose every step is safe in the state where
it executes. -/
inductive SafeRun : Doc → List Op → Prop
  | nil (d : Doc) : SafeRun d []
  | cons {d : Doc} {o : Op} {os : List Op} :
      SafeOp d o → SafeRun (applyOp d o) os → SafeRun d (o :: os)

/-- One-step status evolution: every area with an Active-table row keeps a
row; a `COMPLETED` status survives; the status can become `AVAILABLE` only
if it already was. -/
def StatusStep (d d2 : Doc) : Prop :=
  ∀ x s, rowStatus? d x = some s →
    ∃ s2, rowStatus? d2 x = some s2 ∧ (s = "COMPLETED" → s2 = "COMPLETED") ∧
      (s2 = "AVAILABLE" → s = "AVAILABLE")

/-! Concrete stores used in the counterexamples and witnesses. -/

def storeOneAvail : Doc :=
  ⟨[["FEAT-001", "First feature", "HIGH", ""]], []⟩

def depStore : Doc :=
  ⟨[["FEAT-001", "First", "HIGH", ""], ["FEAT-002", "Second", "HIGH", "FEAT-001"]], []⟩

def collideStore : Doc :=
  ⟨[["FEAT-001", "Fix things", "HIGH", ""]],
   [["FEAT-002", "FEAT-001", "COMPLETED", "AGENT-A", "2025-01-01"]]⟩

def outOfOrderStore : Doc :=
  ⟨[["FEAT-002", "B", "HIGH", ""], ["FEAT-001", "A", "HIGH", ""]], []⟩

def mixedCategoryStore : Doc :=
  ⟨[["FEAT-001", "A", "HIGH", ""], ["FEATX-900", "B", "HIGH", ""]], []⟩

def specStore : Doc :=
  ⟨[["FEAT-001", "A", "HIGH", ""], ["FEAT-003", "B", "HIGH", ""]], []⟩

def inProgressStore : Doc :=
  ⟨[["FEAT-001", "Desc", "HIGH", ""]],
   [["FEAT-003", "Stuff", "IN_PROGRESS", "AGENT-Z", "2025-01-01"]]⟩

def emptyStore : Doc := ⟨[], []⟩

def gitOnDevelop : Git := ⟨"develop", ["develop", "main"], []⟩

/-! ## Claims -/

/-- Claim C1.  The claim states that after one successful `claim_area` on an
id, every subsequent `claim_area` on that id fails until a complete.  The
code violates it: `claim_area` only splices status cells into the matching
rows and never moves the row out of the Available section, so the id is
still parsed as available and a second claim by a different agent succeeds
as well (the `# Move area from available to active` comment documents the
intended behaviour the code fails to implement). -/
theorem second_claim_succeeds_on_claimed_area :
    (claimArea storeOneAvail "FEAT-001" "AGENT-A" "2025-01-02").1 = true ∧
    (claimArea (claimArea storeOneAvail "FEAT-001" "AGENT-A" "2025-01-02").2
        "FEAT-001" "AGENT-B" "2025-01-03").1 = true := by
  decide

/-- Claim C2, counterexample.  `FEAT-002` is AVAILABLE with dependency
`FEAT-001`, which is not COMPLETED (`check_dependencies` reports it unmet),
yet `claim_area` on `FEAT-002` succeeds: `claim_area` performs no dependency
check at all, contradicting the claim that it fails iff a dependency is not
COMPLETED. -/
theorem claim_succeeds_despite_unmet_deps :
    checkDependencies depStore "FEAT-002" = (false, ["FEAT-001"]) ∧
    (claimArea depStore "FEAT-002" "AGENT-A" "2025-01-02").1 = true := by
  decide

/-- Claim C2, amended.  `claim_area` succeeds for every id listed in the
Available section regardless of dependency status; the dependency gate is
enforced one level up, in `create_work_branch`, which returns `None`
whenever `check_dependencies` reports unmet dependencies (before any branch
is created or any claim is attempted). -/
theorem claim_ignores_deps_gate_in_create_branch :
    (∀ (d : Doc) (aid ag t : String),
      ((availableAreas d).any fun a => a.id == aid) = true →
      (claimArea d aid ag t).1 = true) ∧
    (∀ (d1 d2 : Doc) (git : Git) (cerr aid ag t : String),
      (checkDependencies d1 aid).1 = false →
      (createWorkBranch d1 d2 git cerr aid ag t).1 = none) := by
  constructor
  · intro d aid ag t h
    simp [claimArea, h]
  · intro d1 d2 git cerr aid ag t h
    by_cases ha : ((availableAreas d1).any fun a => a.id == aid) = true
    · simp [createWorkBranch, ha, h]
    · simp [createWorkBranch, ha]

/-- Witness for the amended C2 theorem at concrete inputs. -/
theorem claim_ignores_deps_gate_witness :
    (claimArea depStore "FEAT-001" "AGENT-A" "2025-01-02").1 = true ∧
    (createWorkBranch depStore depStore gitOnDevelop "" "FEAT-002" "AGENT-A"
        "2025-01-02").1 = none :=
  ⟨claim_ignores_deps_gate_in_create_branch.1 depStore "FEAT-001" "AGENT-A"
      "2025-01-02" (by decide),
   claim_ignores_deps_gate_in_create_branch.2 depStore depStore gitOnDevelop ""
      "FEAT-002" "AGENT-A" "2025-01-02" (by decide)⟩

/-- Claim C3.  The claim states that when the store records area X as
AVAILABLE and a branch `feature/X-agentB` exists, the reconcile pass
promotes X to IN_PROGRESS assigned to agentB.  The code violates it:
`sync_coordination_file` only inspects rows already present in the Active
table, so for an area listed only as AVAILABLE the branch
`origin/feature/FEAT-001-AGENT-B` triggers nothing and the file is returned
byte-for-byte unchanged, with FEAT-001 still AVAILABLE. -/
theorem sync_does_not_promote_available :
    parseSyncBranch "origin/feature/FEAT-001-AGENT-B" = some ("FEAT-001", "AGENT-B") ∧
    statusOf storeOneAvail "FEAT-001" = "AVAILABLE" ∧
    syncCoordinationFile storeOneAvail ["origin/feature/FEAT-001-AGENT-B"] "2025-01-02"
      = storeOneAvail := by
  decide

/-- Claim C10.  For any id with no row in the Available section — unknown
ids as well as already claimed or completed areas — `check_dependencies`
returns `(True, [])`: the lookup `next((a for a in available_areas ...), None)`
yields `None` and the guard returns immediately, so the check never fails
for an unknown area. -/
theorem check_deps_unknown_area_trivially_met :
    ∀ (d : Doc) (aid : String), (∀ a ∈ availableAreas d, a.id ≠ aid) →
      checkDependencies d aid = (true, []) := by
  intro d aid h
  unfold checkDependencies
  have hfind : (availableAreas d).find? (fun a => a.id == aid) = none := by
    rw [List.find?_eq_none]
    intro a ha
    simpa using h a ha
  rw [hfind]

/-- Witness for C10 at a concrete input: `FEAT-999` exists nowhere in the
store (and `FEAT-002`-style claimed ids would behave the same). -/
theorem check_deps_unknown_area_witness :
    checkDependencies storeOneAvail "FEAT-999" = (true, []) :=
  check_deps_unknown_area_trivially_met storeOneAvail "FEAT-999" (by decide)

/-- Claim C6.  `complete_work_branch` leaves the coordination file unchanged
and returns `False` whenever the branch name does not match
`feature/<AREA>-<num>-...` or the checkout, pull, or merge step fails (the
code treats any nonempty stderr as failure); conversely the file can change
only when the name parsed and all three version-control steps succeeded. -/
theorem complete_branch_aborts_without_store_change :
    ∀ (vcs : VcsRun) (d : Doc) (branch ag t : String),
      ((parseCompleteBranch branch = none ∨ vcs.checkoutErr ≠ "" ∨
          vcs.pullErr ≠ "" ∨ vcs.mergeErr ≠ "") →
        completeWorkBranch vcs d branch ag t = (false, d)) ∧
      ((completeWorkBranch vcs d branch ag t).2 ≠ d →
        (∃ aid, parseCompleteBranch branch = some aid) ∧
          vcs.checkoutErr = "" ∧ vcs.pullErr = "" ∧ vcs.mergeErr = "") := by
  intro vcs d branch ag t
  cases hp : parseCompleteBranch branch with
  | none =>
    have hg : completeWorkBranch vcs d branch ag t = (false, d) := by
      unfold completeWorkBranch
      rw [hp]
    rw [hg]
    exact ⟨fun _ => rfl, fun h => absurd rfl h⟩
  | some aid =>
    have hg : completeWorkBranch vcs d branch ag t
        = if vcs.checkoutErr ≠ "" then (false, d)
          else if vcs.pullErr ≠ "" then (false, d)
          else if vcs.mergeErr ≠ "" then (false, d)
          else completeArea d aid ag t := by
      unfold completeWorkBranch
      rw [hp]
    rw [hg]
    by_cases h1 : vcs.checkoutErr = ""
    · rw [if_neg (not_not_intro h1)]
      by_cases h2 : vcs.pullErr = ""
      · rw [if_neg (not_not_intro h2)]
        by_cases h3 : vcs.mergeErr = ""
        · rw [if_neg (not_not_intro h3)]
          refine ⟨fun hor => ?_, fun _ => ⟨⟨aid, rfl⟩, h1, h2, h3⟩⟩
          rcases hor with h | h | h | h
          · exact absurd h (by simp)
          · exact absurd h1 h
          · exact absurd h2 h
          · exact absurd h3 h
        · rw [if_pos h3]
          exact ⟨fun _ => rfl, fun h => absurd rfl h⟩
      · rw [if_pos h2]
        exact ⟨fun _ => rfl, fun h => absurd rfl h⟩
    · rw [if_pos h1]
      exact ⟨fun _ => rfl, fun h => absurd rfl h⟩

/-- Witness for C6 at a concrete input: a merge failure aborts without
touching the store. -/
theorem complete_branch_aborts_witness :
    completeWorkBranch ⟨"", "", "CONFLICT"⟩ storeOneAvail
      "feature/FEAT-001-AGENT-A" "AGENT-A" "2025-01-02" = (false, storeOneAvail) :=
  (complete_branch_aborts_without_store_change ⟨"", "", "CONFLICT"⟩ storeOneAvail
    "feature/FEAT-001-AGENT-A" "AGENT-A" "2025-01-02").1
    (Or.inr (Or.inr (Or.inr (by decide))))

/-- Claim C7, counterexample.  The claim states that after a failed claim
the coordinator switches back to the *prior* branch.  The code runs
`git checkout main` unconditionally: starting from branch `develop`, a
claim failure (here: the area vanished from the Available table between the
availability check and the claim) ends on `main`, not on the prior branch
`develop`. -/
theorem rollback_switches_to_main_not_prior :
    gitOnDevelop.current = "develop" ∧
    (createWorkBranch storeOneAvail emptyStore gitOnDevelop "" "FEAT-001" "AGENT-A"
        "2025-01-02")
      = (none, emptyStore, ⟨"main", ["develop", "main"], []⟩) ∧
    ("main" : String) ≠ "develop" := by
  decide

/-- Claim C7, amended.  When the claim step of `create_work_branch` fails
after the feature branch was created, the coordinator deletes the
just-created branch (restoring the original local branch list), switches to
`main` — not necessarily the prior branch — and returns `None`, so no orphan
feature branch remains. -/
theorem claim_failure_rollback :
    ∀ (d1 d2 : Doc) (git : Git) (aid ag t : String),
      ((availableAreas d1).any fun a => a.id == aid) = true →
      (checkDependencies d1 aid).1 = true →
      branchExists git (mkWorkBranch aid ag) = false →
      ((availableAreas d2).any fun a => a.id == aid) = false →
      createWorkBranch d1 d2 git "" aid ag t
        = (none, d2, ⟨"main", git.locals, git.remotes⟩) := by
  intro d1 d2 git aid ag t h1 h2 h3 h4
  have hclaim : claimArea d2 aid ag t = (false, d2) := by
    unfold claimArea
    simp [h4]
  have hnotmem : mkWorkBranch aid ag ∉ git.locals := by
    have h3' : mkWorkBranch aid ag ∉ git.locals ∧ mkWorkBranch aid ag ∉ git.remotes := by
      simpa [branchExists] using h3
    exact h3'.1
  have herase : (git.locals ++ [mkWorkBranch aid ag]).erase (mkWorkBranch aid ag)
      = git.locals := by
    rw [List.erase_append_right _ hnotmem, List.erase_cons_head, List.append_nil]
  simp [createWorkBranch, h1, h2, h3, hclaim, herase]

/-- Witness for the amended C7 theorem at a concrete input. -/
theorem claim_failure_rollback_witness :
    createWorkBranch depStore emptyStore gitOnDevelop "" "FEAT-001" "AGENT-A"
        "2025-01-02"
      = (none, emptyStore, ⟨"main", ["develop", "main"], []⟩) :=
  claim_failure_rollback depStore emptyStore gitOnDevelop "FEAT-001" "AGENT-A"
    "2025-01-02" (by decide) (by decide) (by decide) (by decide)

/-! Helper lemmas about `head?` of a filtered list, used for the
`get_next_available_area` characterisation. -/

lemma head_of_filter_some {α : Type} (p : α → Bool) :
    ∀ (l : List α) (a : α), (l.filter p).head? = some a →
      p a = true ∧ ∃ l1 l2, l = l1 ++ a :: l2 ∧ ∀ b ∈ l1, p b = false
  | [], a, h => by simp at h
  | x :: l, a, h => by
    by_cases hx : p x = true
    · rw [List.filter_cons_of_pos hx] at h
      simp only [List.head?_cons, Option.some.injEq] at h
      subst h
      exact ⟨hx, [], l, rfl, by intro b hb; simp at hb⟩
    · rw [List.filter_cons_of_neg hx] at h
      obtain ⟨hp, l1, l2, rfl, hl1⟩ := head_of_filter_some p l a h
      refine ⟨hp, x :: l1, l2, rfl, ?_⟩
      intro b hb
      rcases List.mem_cons.1 hb with rfl | hb
      · simpa using hx
      · exact hl1 b hb

lemma head_of_filter_none {α : Type} (p : α → Bool) (l : List α)
    (h : (l.filter p).head? = none) : ∀ a ∈ l, p a = false := by
  rw [List.head?_eq_none_iff, List.filter_eq_nil_iff] at h
  intro a ha
  simpa using h a ha

/-- Claim C4, counterexample.  With an empty capability set the claim
requires `None` (no category can be in the capabilities), and with
`FEAT-002` listed before `FEAT-001` the claim requires the smaller id
`FEAT-001`; the code returns `FEAT-002`: `get_next_available_area` never
reads its `agent_capabilities` argument, performs no dependency check, and
returns the first match in file order rather than in ascending id order. -/
theorem next_area_ignores_capabilities_and_order :
    getNextAvailableArea outOfOrderStore [] "HIGH"
      = some ⟨"FEAT-002", "B", "HIGH", ""⟩ := by
  decide

/-- Claim C4, amended.  `get_next_available_area` is independent of the
capability argument; when it returns an area, that area is the first one in
the file order of the Available section whose priority equals the request
and whose id has no row in the Active table (dependencies are not
consulted); it returns `None` exactly when no available area passes that
filter.  Being a pure function of the store, repeated calls with unchanged
state return the same result. -/
theorem next_area_characterization :
    ∀ (d : Doc) (caps caps2 : List String) (prio : String),
      getNextAvailableArea d caps prio = getNextAvailableArea d caps2 prio ∧
      (∀ a, getNextAvailableArea d caps prio = some a →
        a.priority = prio ∧ (∀ b ∈ activeAreas d, b.id ≠ a.id) ∧
        ∃ l1 l2, availableAreas d = l1 ++ a :: l2 ∧
          ∀ b ∈ l1, ¬(b.priority = prio ∧ ∀ c ∈ activeAreas d, c.id ≠ b.id)) ∧
      (getNextAvailableArea d caps prio = none →
        ∀ a ∈ availableAreas d, a.priority = prio →
          ∃ b ∈ activeAreas d, b.id = a.id) := by
  intro d caps caps2 prio
  refine ⟨rfl, ?_, ?_⟩
  · intro a h
    obtain ⟨hp, l1, l2, hsplit, hl1⟩ :=
      head_of_filter_some _ (availableAreas d) a h
    rw [Bool.and_eq_true] at hp
    have hp1 : a.priority = prio := by simpa using hp.1
    have hp2 : ∀ b ∈ activeAreas d, b.id ≠ a.id := by
      have : ((activeAreas d).any fun b => b.id == a.id) = false := by
        simpa using hp.2
      rw [List.any_eq_false] at this
      intro b hb
      simpa using this b hb
    refine ⟨hp1, hp2, l1, l2, hsplit, ?_⟩
    intro b hb hcontra
    have hfalse := hl1 b hb
    have hany : ((activeAreas d).any fun c => c.id == b.id) = false := by
      rw [List.any_eq_false]
      intro c hc
      simpa using hcontra.2 c hc
    rw [hany, hcontra.1] at hfalse
    simp at hfalse
  · intro h a ha hprio
    have hfalse := head_of_filter_none _ (availableAreas d) h a ha
    by_contra hno
    push_neg at hno
    have hany : ((activeAreas d).any fun b => b.id == a.id) = false := by
      rw [List.any_eq_false]
      intro b hb
      simpa using hno b hb
    rw [hany, hprio] at hfalse
    simp at hfalse

/-- Witness for the amended C4 theorem at a concrete input: in
`outOfOrderStore` the returned area is `FEAT-002`, the head of the file
order, with matching priority and no active row. -/
theorem next_area_characterization_witness :
    getNextAvailableArea outOfOrderStore ["FEAT"] "HIGH"
      = getNextAvailableArea outOfOrderStore ["FIX"] "HIGH" ∧
    (⟨"FEAT-002", "B", "HIGH", ""⟩ : AvailArea).priority = "HIGH" :=
  ⟨(next_area_characterization outOfOrderStore ["FEAT"] ["FIX"] "HIGH").1,
   ((next_area_characterization outOfOrderStore ["FEAT"] ["FIX"] "HIGH").2.1
      ⟨"FEAT-002", "B", "HIGH", ""⟩ (by decide)).1⟩

/-! Helper lemmas about `List.foldl max`, used for the id-generation
characterisation (`max(...)` in `add_new_area`). -/

lemma foldl_max_le : ∀ (ns : List Nat) (a n : Nat), a ≤ n → (∀ m ∈ ns, m ≤ n) →
    ns.foldl max a ≤ n
  | [], a, n, ha, _ => ha
  | m :: ns, a, n, ha, h => by
    refine foldl_max_le ns (max a m) n ?_ (fun k hk => h k (List.mem_cons_of_mem m hk))
    exact max_le ha (h m (List.mem_cons_self m ns))

lemma self_le_foldl_max : ∀ (ns : List Nat) (a : Nat), a ≤ ns.foldl max a
  | [], a => le_refl a
  | m :: ns, a => le_trans (le_max_left a m) (self_le_foldl_max ns (max a m))

lemma le_foldl_max : ∀ (ns : List Nat) (a n : Nat), n ∈ ns → n ≤ ns.foldl max a
  | [], _, _, h => absurd h (List.not_mem_nil _)
  | m :: ns, a, n, h => by
    rcases List.mem_cons.1 h with rfl | h
    · exact le_trans (le_max_right a n) (self_le_foldl_max ns (max a n))
    · exact le_foldl_max ns (max a m) n h

lemma foldl_max_eq (ns : List Nat) (n : Nat) (hmem : n ∈ ns) (hub : ∀ m ∈ ns, m ≤ n) :
    ns.foldl max 0 = n :=
  le_antisymm (foldl_max_le ns 0 n (Nat.zero_le n) hub) (le_foldl_max ns 0 n hmem)

/-- Claim C8, counterexample.  With FEAT-001 and FEATX-900 present (FEATX is
a different category than FEAT), the claim requires `addArea("FEAT", ...)`
to produce FEAT-002 (one past the largest FEAT sequence number, 1).  The
code selects existing areas by `area['id'].startswith(category)` — a string
prefix test — so FEATX-900 is counted for category FEAT and the new id is
FEAT-901. -/
theorem add_area_uses_string_leading_match :
    (addNewArea mixedCategoryStore "FEAT" "C" "HIGH" "").map (fun p => p.1)
      = some "FEAT-901" ∧ ("FEAT-901" : String) ≠ "FEAT-002" := by
  decide

/-- Claim C8, amended.  `add_new_area` assigns `<category>-<n>` where `n` is
one greater than the maximum sequence number among existing areas (available
and active) whose id has `<category>` as a *string prefix* (so FEATX-900
counts for category FEAT), zero-padded to three digits, and
`<category>-001` when no existing id starts with the category; the new row
is appended to the Available section. -/
theorem add_area_id_generation :
    ∀ (d : Doc) (cat de pr dp : String),
      (categoryIds d cat = [] →
        addNewArea d cat de pr dp
          = some (cat ++ "-001",
              ⟨d.avail ++ [[cat ++ "-001", de, pr, dp]], d.active⟩)) ∧
      (∀ ns n, (categoryIds d cat).mapM seqNum = some ns → n ∈ ns →
        (∀ m ∈ ns, m ≤ n) →
        addNewArea d cat de pr dp
          = some (cat ++ "-" ++ zfill3 (toString (n + 1)),
              ⟨d.avail ++ [[cat ++ "-" ++ zfill3 (toString (n + 1)), de, pr, dp]],
                d.active⟩)) := by
  intro d cat de pr dp
  constructor
  · intro hcat
    unfold addNewArea
    rw [hcat]
  · intro ns n hmap hmem hub
    cases hcat : categoryIds d cat with
    | nil =>
      rw [hcat] at hmap
      simp only [List.mapM_nil, Option.pure_def, Option.some.injEq] at hmap
      subst hmap
      exact absurd hmem (List.not_mem_nil n)
    | cons i ids =>
      have hmax : ns.foldl max 0 = n := foldl_max_eq ns n hmem hub
      unfold addNewArea
      rw [hcat] at hmap ⊢
      simp only [hmap, hmax]

/-- Witness for the amended C8 theorem: the spec's own example — with
FEAT-001 and FEAT-003 present, the next id is FEAT-004 (next after max, not
first gap), zero-padded by `zfill3`. -/
theorem add_area_id_generation_witness :
    addNewArea specStore "FEAT" "New work" "HIGH" ""
      = some ("FEAT" ++ "-" ++ zfill3 (toString (3 + 1)),
          ⟨specStore.avail ++ [["FEAT" ++ "-" ++ zfill3 (toString (3 + 1)),
            "New work", "HIGH", ""]], specStore.active⟩) ∧
    ("FEAT" ++ "-" ++ zfill3 (toString (3 + 1)) : String) = "FEAT-004" :=
  ⟨(add_area_id_generation specStore "FEAT" "New work" "HIGH" "").2 [1, 3] 3
      (by decide) (by decide) (by decide),
   by decide⟩

/-! Helper lemmas about greedy character-run parsing, used for the
branch-name round trip. -/

lemma takeWhile_all {p : Char → Bool} :
    ∀ (l : List Char), (∀ c ∈ l, p c = true) → l.takeWhile p = l
  | [], _ => rfl
  | c :: l, h => by
    rw [List.takeWhile_cons, if_pos (h c (List.mem_cons_self c l))]
    rw [takeWhile_all l (fun x hx => h x (List.mem_cons_of_mem c hx))]

lemma takeWhile_append_stop {p : Char → Bool} :
    ∀ (l : List Char) (x : Char) (r : List Char),
      (∀ c ∈ l, p c = true) → p x = false →
      (l ++ x :: r).takeWhile p = l ∧ (l ++ x :: r).dropWhile p = x :: r
  | [], x, r, _, hx => by
    constructor
    · rw [List.nil_append, List.takeWhile_cons, if_neg (by simp [hx])]
    · rw [List.nil_append, List.dropWhile_cons, if_neg (by simp [hx])]
  | c :: l, x, r, h, hx => by
    have hc : p c = true := h c (List.mem_cons_self c l)
    have ih := takeWhile_append_stop l x r (fun y hy => h y (List.mem_cons_of_mem c hy)) hx
    constructor
    · rw [List.cons_append, List.takeWhile_cons, if_pos hc, ih.1]
    · rw [List.cons_append, List.dropWhile_cons, if_pos hc, ih.2]

lemma matchAreaIdDash_spec (us ds rest : List Char)
    (hu : us ≠ []) (hu2 : ∀ c ∈ us, isUpperCh c = true)
    (hd : ds ≠ []) (hd2 : ∀ c ∈ ds, isDigitCh c = true) :
    matchAreaIdDash (us ++ '-' :: (ds ++ '-' :: rest))
      = some (us ++ '-' :: ds, rest) := by
  have hdashU : isUpperCh '-' = false := by decide
  have hdashD : isDigitCh '-' = false := by decide
  have h1 := takeWhile_append_stop us '-' (ds ++ '-' :: rest) hu2 hdashU
  have h2 := takeWhile_append_stop ds '-' rest hd2 hdashD
  have hue : us.isEmpty = false := by
    cases us with
    | nil => exact absurd rfl hu
    | cons c l => rfl
  have hde : ds.isEmpty = false := by
    cases ds with
    | nil => exact absurd rfl hd
    | cons c l => rfl
  unfold matchAreaIdDash
  simp only [h1.1, h1.2, hue, Bool.false_eq_true, if_false, h2.1, h2.2, hde]

/-- Claim C9, counterexample.  The claim asserts that for every agent id the
branch generated as `feature/<areaId>-<agentId>` is parsed back to that
areaId by both the completion and the reconciliation regexes.  For the
lowercase agent id `x` — outside `[A-Z0-9-]+` — the reconciliation regex
`origin/feature/([A-Z]+-\d+)-([A-Z0-9-]+)` matches nothing at all, so the
branch is not parsed to `FEAT-001` (the completion regex does still
succeed). -/
theorem sync_regex_rejects_lowercase_agent :
    mkWorkBranch "FEAT-001" "x" = "feature/FEAT-001-x" ∧
    parseSyncBranch ("origin/" ++ mkWorkBranch "FEAT-001" "x") = none ∧
    parseCompleteBranch (mkWorkBranch "FEAT-001" "x") = some "FEAT-001" := by
  decide

/-- Claim C9, amended.  For every areaId `<uppercase letters>-<digits>` and
every agent id: (a) the branch `feature/<areaId>-<agentId>` generated by
`create_work_branch` is parsed back to exactly that areaId by the completion
regex; (b) the reconciliation regex applied to
`origin/feature/<areaId>-<agentId>` recovers the areaId together with the
*maximal leading run* of the agent id over `[A-Z0-9-]` when that run is
nonempty — so an agent id such as `Ax` is truncated to `A` — and does not
match at all when the agent id's first character is outside the class (e.g.
lowercase `x`, or the empty agent id); (c) consequently the full
(areaId, agentId) pair is recovered exactly when the agent id is a nonempty
string of uppercase letters, digits and hyphens. -/
theorem branch_name_round_trip :
    ∀ us ds ag : List Char,
      us ≠ [] → (∀ c ∈ us, isUpperCh c = true) →
      ds ≠ [] → (∀ c ∈ ds, isDigitCh c = true) →
      (parseCompleteBranch
          (mkWorkBranch (String.mk (us ++ '-' :: ds)) (String.mk ag))
        = some (String.mk (us ++ '-' :: ds))) ∧
      (parseSyncBranch
          ("origin/" ++ mkWorkBranch (String.mk (us ++ '-' :: ds)) (String.mk ag))
        = if ag.takeWhile isAgentCh = [] then none
          else some (String.mk (us ++ '-' :: ds),
            String.mk (ag.takeWhile isAgentCh))) ∧
      (parseSyncBranch
            ("origin/" ++ mkWorkBranch (String.mk (us ++ '-' :: ds)) (String.mk ag))
          = some (String.mk (us ++ '-' :: ds), String.mk ag)
        ↔ ag ≠ [] ∧ ∀ c ∈ ag, isAgentCh c = true) := by
  intro us ds ag hu hu2 hd hd2
  have hdata : (mkWorkBranch (String.mk (us ++ '-' :: ds)) (String.mk ag)).data
      = ['f', 'e', 'a', 't', 'u', 'r', 'e', '/'] ++ (us ++ '-' :: (ds ++ '-' :: ag)) := by
    show ("feature/" ++ String.mk (us ++ '-' :: ds) ++ "-" ++ String.mk ag).data = _
    rw [String.data_append, String.data_append, String.data_append]
    show ['f', 'e', 'a', 't', 'u', 'r', 'e', '/'] ++ (us ++ '-' :: ds) ++ ['-'] ++ ag = _
    simp [List.append_assoc]
  have hm := matchAreaIdDash_spec us ds ag hu hu2 hd hd2
  have hcomplete : parseCompleteBranch
      (mkWorkBranch (String.mk (us ++ '-' :: ds)) (String.mk ag))
      = some (String.mk (us ++ '-' :: ds)) := by
    show parseCompleteBranchL _ = _
    rw [hdata]
    show (matchAreaIdDash (us ++ '-' :: (ds ++ '-' :: ag))).map (fun p => String.mk p.1)
        = _
    rw [hm]
    rfl
  have hdata2 : ("origin/"
        ++ mkWorkBranch (String.mk (us ++ '-' :: ds)) (String.mk ag)).data
      = ['o', 'r', 'i', 'g', 'i', 'n', '/', 'f', 'e', 'a', 't', 'u', 'r', 'e', '/']
        ++ (us ++ '-' :: (ds ++ '-' :: ag)) := by
    rw [String.data_append, hdata]
    show ['o', 'r', 'i', 'g', 'i', 'n', '/']
        ++ (['f', 'e', 'a', 't', 'u', 'r', 'e', '/'] ++ _) = _
    simp
  have hsync : parseSyncBranch
      ("origin/" ++ mkWorkBranch (String.mk (us ++ '-' :: ds)) (String.mk ag))
      = if ag.takeWhile isAgentCh = [] then none
        else some (String.mk (us ++ '-' :: ds), String.mk (ag.takeWhile isAgentCh)) := by
    show parseSyncBranchL _ = _
    rw [hdata2]
    show (match matchAreaIdDash (us ++ '-' :: (ds ++ '-' :: ag)) with
      | some (g1, rem) =>
        let a := rem.takeWhile isAgentCh
        if a.isEmpty then none else some (String.mk g1, String.mk a)
      | none => none) = _
    rw [hm]
    by_cases he : ag.takeWhile isAgentCh = []
    · have hE : (ag.takeWhile isAgentCh).isEmpty = true := by
        rw [he]
        rfl
      simp only [hE, if_true, if_pos he]
    · have hE : (ag.takeWhile isAgentCh).isEmpty = false := by
        cases hx : ag.takeWhile isAgentCh with
        | nil => exact absurd hx he
        | cons c l => rfl
      simp only [hE, Bool.false_eq_true, if_false, if_neg he]
  refine ⟨hcomplete, hsync, ?_, ?_⟩
  · intro h
    rw [hsync] at h
    by_cases he : ag.takeWhile isAgentCh = []
    · rw [if_pos he] at h
      exact Option.noConfusion h
    · rw [if_neg he] at h
      have hpair := Option.some.inj h
      have h2 : String.mk (ag.takeWhile isAgentCh) = String.mk ag :=
        congrArg Prod.snd hpair
      have h3 : ag.takeWhile isAgentCh = ag := congrArg String.data h2
      refine ⟨?_, List.takeWhile_eq_self_iff.1 h3⟩
      intro hag0
      apply he
      rw [hag0]
      rfl
  · rintro ⟨hag, hall⟩
    rw [hsync]
    have htw : ag.takeWhile isAgentCh = ag := takeWhile_all ag hall
    rw [if_neg (by rw [htw]; exact hag), htw]

/-- Witness for the amended C9 theorem at a concrete input, exercising both
the exact-recovery direction and the truncation case. -/
theorem branch_name_round_trip_witness :
    (parseCompleteBranch
        (mkWorkBranch (String.mk ("FEAT".data ++ '-' :: "001".data))
          (String.mk "AGENT-1".data))
      = some (String.mk ("FEAT".data ++ '-' :: "001".data))) ∧
    parseSyncBranch
        ("origin/" ++ mkWorkBranch (String.mk ("FEAT".data ++ '-' :: "001".data))
          (String.mk "AGENT-1".data))
      = some (String.mk ("FEAT".data ++ '-' :: "001".data), String.mk "AGENT-1".data) ∧
    parseSyncBranch
        ("origin/" ++ mkWorkBranch (String.mk ("FEAT".data ++ '-' :: "001".data))
          (String.mk "Ax".data))
      = some (String.mk ("FEAT".data ++ '-' :: "001".data),
          String.mk ("Ax".data.takeWhile isAgentCh)) :=
  have h := branch_name_round_trip "FEAT".data "001".data "AGENT-1".data
    (by decide) (by decide) (by decide) (by decide)
  have h2 := branch_name_round_trip "FEAT".data "001".data "Ax".data
    (by decide) (by decide) (by decide) (by decide)
  ⟨h.1, h.2.2.mpr ⟨by decide, by decide⟩,
   (h2.2.1).trans (by rw [if_neg (by decide)])⟩

/-! Helper lemmas about the whole-file splice and the status observation,
used for the monotone-status theorem. -/

lemma spliceCells_of_not_mem (x : String) (ins : List String) :
    ∀ (l : Line), x ∉ l → spliceCells x ins l = l
  | [], _ => rfl
  | [c], h => by
    have hc : ¬ c = x := by
      intro e
      subst e
      exact h (List.mem_singleton_self c)
    simp [spliceCells, hc]
  | c :: c2 :: rest, h => by
    have hc : ¬ c = x := by
      intro e
      subst e
      exact h (List.mem_cons_self c (c2 :: rest))
    have h2 : x ∉ c2 :: rest := fun hm => h (List.mem_cons_of_mem c hm)
    rw [show spliceCells x ins (c :: c2 :: rest)
        = if c = x then c :: ins ++ c2 :: spliceCells x ins rest
          else c :: spliceCells x ins (c2 :: rest) from rfl]
    rw [if_neg hc, spliceCells_of_not_mem x ins (c2 :: rest) h2]

lemma spliceCells_head (x : String) (ins : List String) (t0 : String) (tl : List String)
    (h : x ∉ tl) : spliceCells x ins (x :: t0 :: tl) = x :: ins ++ t0 :: tl := by
  rw [show spliceCells x ins (x :: t0 :: tl)
      = if x = x then x :: ins ++ t0 :: spliceCells x ins tl
        else x :: spliceCells x ins (t0 :: tl) from rfl]
  rw [if_pos rfl, spliceCells_of_not_mem x ins tl h]

lemma map_splice_of_not_mem (x : String) (ins : List String) :
    ∀ (L : List Line), (∀ l ∈ L, x ∉ l) → L.map (spliceCells x ins) = L
  | [], _ => rfl
  | l :: L, h => by
    rw [List.map_cons, spliceCells_of_not_mem x ins l (h l (List.mem_cons_self l L)),
      map_splice_of_not_mem x ins L (fun l2 h2 => h l2 (List.mem_cons_of_mem l h2))]

lemma claimArea_active_of_safe (d : Doc) (aid ag t : String)
    (h : ∀ l ∈ d.active, aid ∉ l) :
    ((claimArea d aid ag t).2).active = d.active := by
  unfold claimArea
  by_cases hc : ((availableAreas d).any fun a => a.id == aid) = true
  · rw [if_pos hc]
    exact map_splice_of_not_mem aid _ d.active h
  · rw [if_neg hc]

lemma statusStep_refl (d : Doc) : StatusStep d d :=
  fun _ s h => ⟨s, h, fun hc => hc, fun ha => ha⟩

lemma statusStep_trans {d1 d2 d3 : Doc} (h12 : StatusStep d1 d2)
    (h23 : StatusStep d2 d3) : StatusStep d1 d3 := by
  intro x s h
  obtain ⟨s2, h2, hc2, ha2⟩ := h12 x s h
  obtain ⟨s3, h3, hc3, ha3⟩ := h23 x s2 h2
  exact ⟨s3, h3, fun hc => hc3 (hc2 hc), fun ha => ha2 (ha3 ha)⟩

lemma statusStep_of_active_eq {d d2 : Doc} (h : d2.active = d.active) :
    StatusStep d d2 := by
  intro x s hs
  refine ⟨s, ?_, fun hc => hc, fun ha => ha⟩
  show listStatus d2.active x = some s
  rw [h]
  exact hs

lemma listStatus_cons_parse (l : Line) (L : List Line) (a : ActiveArea) (x : String)
    (hp : parseActiveLine l = some a) (hid : a.id = x) :
    listStatus (l :: L) x = some a.status := by
  unfold listStatus
  simp only [List.filterMap_cons, hp]
  rw [List.find?_cons_of_pos _ (by simp [hid])]
  rfl

lemma listStatus_cons_skip (l : Line) (L : List Line) (a : ActiveArea) (x : String)
    (hp : parseActiveLine l = some a) (hid : a.id ≠ x) :
    listStatus (l :: L) x = listStatus L x := by
  unfold listStatus
  simp only [List.filterMap_cons, hp]
  rw [List.find?_cons_of_neg _ (by simp [hid])]

lemma listStatus_cons_none (l : Line) (L : List Line) (x : String)
    (hp : parseActiveLine l = none) :
    listStatus (l :: L) x = listStatus L x := by
  unfold listStatus
  simp only [List.filterMap_cons, hp]

lemma splice_status_step (aid ag t : String) (hag : ag ≠ "AVAILABLE") :
    ∀ (L : List Line), (∀ l ∈ L, aid ∈ l → CompleteShape aid l) →
      ∀ (x s : String), listStatus L x = some s →
        ∃ s2, listStatus (L.map (spliceCells aid ["COMPLETED", ag, t])) x = some s2 ∧
          (s = "COMPLETED" → s2 = "COMPLETED") ∧ (s2 = "AVAILABLE" → s = "AVAILABLE") := by
  intro L
  induction L with
  | nil =>
    intro _ x s h
    exact absurd h (by simp [listStatus])
  | cons l L ih =>
    intro hs x s h
    have hstail : ∀ l2 ∈ L, aid ∈ l2 → CompleteShape aid l2 :=
      fun l2 h2 => hs l2 (List.mem_cons_of_mem l h2)
    by_cases hmem : aid ∈ l
    · obtain ⟨tl, rfl, hnot, hlen, hst⟩ := hs l (List.mem_cons_self l L) hmem
      rcases tl with _ | ⟨t0, tl⟩
      · simp only [List.length_nil] at hlen
        omega
      rcases tl with _ | ⟨t1, tl⟩
      · simp only [List.length_cons, List.length_nil] at hlen
        omega
      rcases tl with _ | ⟨t2, tl⟩
      · simp only [List.length_cons, List.length_nil] at hlen
        omega
      have hnot2 : aid ∉ t1 :: t2 :: tl := fun hm => hnot (List.mem_cons_of_mem t0 hm)
      have hsplice : spliceCells aid ["COMPLETED", ag, t] (aid :: t0 :: t1 :: t2 :: tl)
          = aid :: "COMPLETED" :: ag :: t :: t0 :: t1 :: t2 :: tl := by
        rw [spliceCells_head aid _ t0 (t1 :: t2 :: tl) hnot2]
        rfl
      have ht1 : t1 ≠ "COMPLETED" := by
        intro he
        apply hst
        simp [List.get?, he]
      have pold : parseActiveLine (aid :: t0 :: t1 :: t2 :: tl)
          = some ⟨aid, t0, t1, t2, tl.headD ""⟩ := rfl
      have pnew : parseActiveLine (aid :: "COMPLETED" :: ag :: t :: t0 :: t1 :: t2 :: tl)
          = some ⟨aid, "COMPLETED", ag, t, t0⟩ := rfl
      by_cases hx : aid = x
      · subst hx
        have e1 : listStatus ((aid :: t0 :: t1 :: t2 :: tl) :: L) aid = some t1 :=
          listStatus_cons_parse _ _ _ _ pold rfl
        have e2 : listStatus
            (((aid :: t0 :: t1 :: t2 :: tl) :: L).map
              (spliceCells aid ["COMPLETED", ag, t])) aid = some ag := by
          rw [List.map_cons, hsplice]
          exact listStatus_cons_parse _ _ _ _ pnew rfl
        have hs1 : s = t1 := by
          rw [e1] at h
          exact (Option.some.injEq _ _ ▸ h).symm
        exact ⟨ag, e2, fun hC => absurd (hs1.symm.trans hC) ht1,
          fun hA => absurd hA hag⟩
      · have e1 : listStatus ((aid :: t0 :: t1 :: t2 :: tl) :: L) x = listStatus L x :=
          listStatus_cons_skip _ _ _ _ pold hx
        have e2 : listStatus
            (((aid :: t0 :: t1 :: t2 :: tl) :: L).map
              (spliceCells aid ["COMPLETED", ag, t])) x
            = listStatus (L.map (spliceCells aid ["COMPLETED", ag, t])) x := by
          rw [List.map_cons, hsplice]
          exact listStatus_cons_skip _ _ _ _ pnew hx
        rw [e1] at h
        obtain ⟨s2, h2, hc2, ha2⟩ := ih hstail x s h
        exact ⟨s2, by rw [e2]; exact h2, hc2, ha2⟩
    · have hl : spliceCells aid ["COMPLETED", ag, t] l = l :=
        spliceCells_of_not_mem aid _ l hmem
      cases hp : parseActiveLine l with
      | none =>
        have e1 := listStatus_cons_none l L x hp
        have e2 : listStatus
            ((l :: L).map (spliceCells aid ["COMPLETED", ag, t])) x
            = listStatus (L.map (spliceCells aid ["COMPLETED", ag, t])) x := by
          rw [List.map_cons, hl]
          exact listStatus_cons_none l _ x hp
        rw [e1] at h
        obtain ⟨s2, h2, hc2, ha2⟩ := ih hstail x s h
        exact ⟨s2, by rw [e2]; exact h2, hc2, ha2⟩
      | some a =>
        by_cases hax : a.id = x
        · have e1 := listStatus_cons_parse l L a x hp hax
          have e2 : listStatus
              ((l :: L).map (spliceCells aid ["COMPLETED", ag, t])) x
              = some a.status := by
            rw [List.map_cons, hl]
            exact listStatus_cons_parse l _ a x hp hax
          have hs1 : s = a.status := by
            rw [e1] at h
            exact (Option.some.injEq _ _ ▸ h).symm
          exact ⟨s, by rw [e2, hs1], fun hc => hc, fun ha => ha⟩
        · have e1 := listStatus_cons_skip l L a x hp hax
          have e2 : listStatus
              ((l :: L).map (spliceCells aid ["COMPLETED", ag, t])) x
              = listStatus (L.map (spliceCells aid ["COMPLETED", ag, t])) x := by
            rw [List.map_cons, hl]
            exact listStatus_cons_skip l _ a x hp hax
          rw [e1] at h
          obtain ⟨s2, h2, hc2, ha2⟩ := ih hstail x s h
          exact ⟨s2, by rw [e2]; exact h2, hc2, ha2⟩

lemma completeArea_statusStep (d : Doc) (aid ag t : String) (hag : ag ≠ "AVAILABLE")
    (hs : ∀ l ∈ d.active, aid ∈ l → CompleteShape aid l) :
    StatusStep d (completeArea d aid ag t).2 := by
  unfold completeArea
  by_cases hc : ((activeAreas d).any fun a =>
      a.id == aid && a.assigned == ag && a.status == "IN_PROGRESS") = true
  · rw [if_pos hc]
    intro x s h
    exact splice_status_step aid ag t hag d.active hs x s h
  · rw [if_neg hc]
    exact statusStep_refl d

lemma addNewArea_active (d : Doc) (c de p dp : String) (pr : String × Doc)
    (h : addNewArea d c de p dp = some pr) : pr.2.active = d.active := by
  unfold addNewArea at h
  split at h
  · cases h
    rfl
  · split at h
    · exact Option.noConfusion h
    · cases h
      rfl

lemma applyOp_add_active (d : Doc) (c de p dp : String) :
    (applyOp d (Op.addOp c de p dp)).active = d.active := by
  show (match addNewArea d c de p dp with
    | some pr => pr.2
    | none => d).active = d.active
  cases h : addNewArea d c de p dp with
  | none => rfl
  | some pr => exact addNewArea_active d c de p dp pr h

lemma syncStep_active (act0 : List ActiveArea) (t : String) (d : Doc)
    (pr : String × String) (h : ∀ l ∈ d.active, pr.1 ∉ l) :
    (syncStep act0 t d pr).active = d.active := by
  unfold syncStep
  by_cases hc : (act0.any fun a => a.id == pr.1 && a.assigned != pr.2) = true
  · rw [if_pos hc]
    exact claimArea_active_of_safe d pr.1 pr.2 t h
  · rw [if_neg hc]

lemma sync_fold_active (act0 : List ActiveArea) (t : String) :
    ∀ (prs : List (String × String)) (d : Doc),
      (∀ pr ∈ prs, ∀ l ∈ d.active, pr.1 ∉ l) →
      (prs.foldl (syncStep act0 t) d).active = d.active
  | [], _, _ => rfl
  | pr :: prs, d, h => by
    have h1 : (syncStep act0 t d pr).active = d.active :=
      syncStep_active act0 t d pr (h pr (List.mem_cons_self pr prs))
    have h2 : ∀ pr2 ∈ prs, ∀ l ∈ (syncStep act0 t d pr).active, pr2.1 ∉ l := by
      intro pr2 hm l hl
      rw [h1] at hl
      exact h pr2 (List.mem_cons_of_mem pr hm) l hl
    rw [List.foldl_cons, sync_fold_active act0 t prs _ h2, h1]

lemma safeOp_statusStep (d : Doc) (o : Op) (h : SafeOp d o) :
    StatusStep d (applyOp d o) := by
  cases o with
  | claimOp a g t => exact statusStep_of_active_eq (claimArea_active_of_safe d a g t h)
  | completeOp a g t => exact completeArea_statusStep d a g t h.1 h.2
  | addOp c de p dp => exact statusStep_of_active_eq (applyOp_add_active d c de p dp)
  | syncOp bs t =>
    refine statusStep_of_active_eq ?_
    show (syncCoordinationFile d bs t).active = d.active
    unfold syncCoordinationFile
    exact sync_fold_active (activeAreas d) t (syncPairs bs) d h

lemma safeRun_statusStep : ∀ {d : Doc} {ops : List Op},
    SafeRun d ops → StatusStep d (runOps d ops) := by
  intro d ops h
  induction h with
  | nil d => exact statusStep_refl d
  | cons hsafe _ ih => exact statusStep_trans (safeOp_statusStep _ _ hsafe) ih

/-- Claim C5, counterexample.  A single public `claim_area` call moves an
area out of COMPLETED: in `collideStore` the Active table records FEAT-002
as COMPLETED with description `FEAT-001`, and FEAT-001 is AVAILABLE.
Claiming FEAT-001 splices `IN_PROGRESS | AGENT-B | date` after *every* cell
equal to `FEAT-001` in the whole file — including the description cell of
FEAT-002's Active row — which shifts that row's columns so that it now
parses with status IN_PROGRESS: a COMPLETED → IN_PROGRESS transition via
the public API. -/
theorem completed_regresses_via_claim :
    statusOf collideStore "FEAT-002" = "COMPLETED" ∧
    statusOf (runOps collideStore [Op.claimOp "FEAT-001" "AGENT-B" "2025-01-02"])
        "FEAT-002" = "IN_PROGRESS" := by
  decide

/-- Claim C5, amended.  Provided each operation is *safe* — the claimed or
completed id never occurs as a cell of an Active-table line except as the id
cell of a well-formed, not-yet-COMPLETED row, and no completing agent is
named `AVAILABLE` — no sequence of public operations (claim, complete, add,
sync) ever moves an area out of COMPLETED, and never takes an IN_PROGRESS
area back to AVAILABLE.  Without the safety conditions the whole-file
`str.replace` can corrupt foreign rows (see the counterexample). -/
theorem status_monotone_of_safe_run :
    ∀ (d : Doc) (ops : List Op), SafeRun d ops → ∀ x : String,
      (statusOf d x = "COMPLETED" → statusOf (runOps d ops) x = "COMPLETED") ∧
      (statusOf d x = "IN_PROGRESS" → statusOf (runOps d ops) x ≠ "AVAILABLE") := by
  intro d ops hrun x
  have hstep := safeRun_statusStep hrun
  constructor
  · intro hC
    cases hr : rowStatus? d x with
    | none =>
      exfalso
      unfold statusOf at hC
      rw [hr] at hC
      by_cases hav : ((availableAreas d).any fun a => a.id == x) = true
      · rw [if_pos hav] at hC
        exact absurd hC (by decide)
      · rw [if_neg hav] at hC
        exact absurd hC (by decide)
    | some s =>
      have hsx : statusOf d x = s := by
        unfold statusOf
        rw [hr]
      rw [hsx] at hC
      obtain ⟨s2, h2, hc2, _⟩ := hstep x s hr
      have hfin : statusOf (runOps d ops) x = s2 := by
        unfold statusOf
        rw [show rowStatus? (runOps d ops) x = some s2 from h2]
      rw [hfin]
      exact hc2 hC
  · intro hI
    cases hr : rowStatus? d x with
    | none =>
      exfalso
      unfold statusOf at hI
      rw [hr] at hI
      by_cases hav : ((availableAreas d).any fun a => a.id == x) = true
      · rw [if_pos hav] at hI
        exact absurd hI (by decide)
      · rw [if_neg hav] at hI
        exact absurd hI (by decide)
    | some s =>
      have hsx : statusOf d x = s := by
        unfold statusOf
        rw [hr]
      rw [hsx] at hI
      obtain ⟨s2, h2, _, ha2⟩ := hstep x s hr
      have hfin : statusOf (runOps d ops) x = s2 := by
        unfold statusOf
        rw [show rowStatus? (runOps d ops) x = some s2 from h2]
      rw [hfin]
      intro hAv
      have h3 : s = "AVAILABLE" := ha2 hAv
      rw [hI] at h3
      exact absurd h3 (by decide)

/-- Witness for the amended C5 theorem: a safe claim leaves an IN_PROGRESS
area away from AVAILABLE. -/
theorem status_monotone_witness :
    statusOf inProgressStore "FEAT-003" = "IN_PROGRESS" ∧
    statusOf (runOps inProgressStore [Op.claimOp "FEAT-001" "AGENT-A" "2025-01-02"])
        "FEAT-003" ≠ "AVAILABLE" :=
  have hrun : SafeRun inProgressStore [Op.claimOp "FEAT-001" "AGENT-A" "2025-01-02"] :=
    SafeRun.cons
      (show ∀ l ∈ inProgressStore.active, "FEAT-001" ∉ l by decide)
      (SafeRun.nil _)
  ⟨by decide,
   (status_monotone_of_safe_run inProgressStore
      [Op.claimOp "FEAT-001" "AGENT-A" "2025-01-02"] hrun "FEAT-003").2 (by decide)⟩

end Coordination
